import Mathlib

/-!
Verification of the task-dependency execution engine in
backend/core/orchestrator.py: the runnable-task computation,
the agent nodes, the router, and the LangGraph state-merge rules.

Machine integers are modelled as Nat (task ids are Python ints),
Python sets as Finset Nat, Python lists as Lean lists, and the
external LLM/tool calls performed by the agents as oracle functions
supplied as parameters.
-/

namespace Orchestrator

/-- A langchain Document: page content plus a flat metadata map.
Mirrors the Document objects stored in raw_documents. -/
structure Document where
  page_content : String
  metadata : List (String × String)
deriving DecidableEq

/-- The value stored under the summary key of an agent_summaries entry.
In the source it is either the default empty dict from
result.get with default, or the payload produced by a capability
(a structured competitor or trend or paper payload, or the synthesis
report string); only emptiness versus content matters here, so the
content is kept as a string. -/
inductive SummaryPayload where
  | emptyDict : SummaryPayload
  | value (v : String) : SummaryPayload
deriving DecidableEq

/-- One entry of agent_summaries, as built by the agent nodes:
a dict with agent, task_id and summary keys. -/
structure Summary where
  agent : String
  task_id : Nat
  summary : SummaryPayload
deriving DecidableEq

/-- One task of the planner output: id, title, description, priority,
depends_on and assigned_agent, as in the plan dicts of the source. -/
structure Task where
  id : Nat
  title : String
  description : String
  priority : String
  depends_on : List Nat
  assigned_agent : String
deriving DecidableEq

/-- The plan dict: research_goal plus the tasks list
(accessed in the source as plan.get with key tasks and default empty list). -/
structure Plan where
  research_goal : String
  tasks : List Task
deriving DecidableEq

/-- GraphState of the source: plan, completed_tasks
(Annotated with operator.ior, a set of ints), raw_documents and
agent_summaries (Annotated with operator.add), and final_report. -/
structure GraphState where
  plan : Plan
  completed_tasks : Finset Nat
  raw_documents : List Document
  agent_summaries : List Summary
  final_report : String
deriving DecidableEq

/-- A partial state dict returned by a node. A key a node does not
return is the neutral element of its reducer, so absent keys are
modelled by the defaults. -/
structure StateUpdate where
  completed_tasks : Finset Nat := ∅
  raw_documents : List Document := []
  agent_summaries : List Summary := []
deriving DecidableEq

/-- The LangGraph merge of a node result into the state, as declared by
the Annotated reducers of GraphState: completed_tasks via operator.ior
(set union), raw_documents and agent_summaries via operator.add
(list concatenation); plan and final_report are not written by any node. -/
def applyUpdate (state : GraphState) (update : StateUpdate) : GraphState :=
  { state with
    completed_tasks := state.completed_tasks ∪ update.completed_tasks
    raw_documents := state.raw_documents ++ update.raw_documents
    agent_summaries := state.agent_summaries ++ update.agent_summaries }

/-- The loop body of find_runnable_tasks: walk the tasks list in order,
skip a task whose id is already in completed, keep a task whose
depends_on set is a subset of completed. -/
def runnable_loop (completed : Finset Nat) : List Task → List Task
  | [] => []
  | task :: rest =>
    if task.id ∈ completed then
      runnable_loop completed rest
    else if task.depends_on.all (fun d => decide (d ∈ completed)) then
      task :: runnable_loop completed rest
    else
      runnable_loop completed rest

/-- find_runnable_tasks of the source: all tasks of the plan that can be
run (not yet completed, dependencies met), in plan order. -/
def find_runnable_tasks (plan : Plan) (completed : Finset Nat) : List Task :=
  runnable_loop completed plan.tasks

/-- The task-selection loop shared by the three agent nodes: the first
task of the plan whose id is not completed, whose assigned_agent equals
the agent name of the node, and whose dependencies are all completed. -/
def pick_task (plan : Plan) (completed : Finset Nat) (agentName : String) : Option Task :=
  plan.tasks.find? (fun t =>
    decide (t.id ∉ completed ∧ t.assigned_agent = agentName ∧
      ∀ d ∈ t.depends_on, d ∈ completed))

/-- The outcome of one agent run call. The run methods of the agents are
wrapped in a top-level try/except and return either a success dict
carrying output_summary and output_raw_docs, or a failure dict
carrying only an error string (so the output keys are absent). -/
inductive RunResult where
  | ok (output_summary : SummaryPayload) (output_raw_docs : List Document) : RunResult
  | err (error : String) : RunResult
deriving DecidableEq

/-- result.get with key output_raw_docs and default empty list. -/
def RunResult.getRawDocs : RunResult → List Document
  | .ok _ docs => docs
  | .err _ => []

/-- result.get with key output_summary and default empty dict. -/
def RunResult.getSummary : RunResult → SummaryPayload
  | .ok p _ => p
  | .err _ => .emptyDict

/-- The external calls of the engine, supplied as parameters: the run
methods of the three agent classes and the llm.invoke call of
_run_synthesis_task. Each is a function of the task and the current
state, standing for the I/O the source performs there. -/
structure Oracles where
  competitorScoutRun : Task → GraphState → RunResult
  techPaperMinerRun : Task → GraphState → RunResult
  trendsScraperRun : Task → GraphState → RunResult
  synthesizerInvoke : Task → GraphState → String

/-- _run_synthesis_task of the source: invoke the LLM on the task plus
the accumulated summaries and documents, append one summary entry
labelled with the assigned_agent of the task, and mark the task completed.
No raw_documents key is returned. -/
def run_synthesis_task (o : Oracles) (state : GraphState) (task : Task) : StateUpdate :=
  let final_report := o.synthesizerInvoke task state
  { agent_summaries :=
      [{ agent := task.assigned_agent, task_id := task.id, summary := .value final_report }]
    completed_tasks := {task.id} }

/-- The common body of the three agent node functions, parametrised by
the assigned_agent name the node filters on, the literal agent label it
writes into its summaries, and the run method of its agent class. If no
pending matching task has its dependencies met, the node returns only an
empty completed_tasks set. Otherwise, a task with empty depends_on runs
the collector agent; a task with non-empty depends_on runs
_run_synthesis_task. -/
def agent_task_node (pickName labelName : String)
    (runAgent : Task → GraphState → RunResult)
    (o : Oracles) (state : GraphState) : StateUpdate :=
  match pick_task state.plan state.completed_tasks pickName with
  | none => { completed_tasks := ∅ }
  | some task =>
    if task.depends_on.isEmpty then
      let result := runAgent task state
      { raw_documents := result.getRawDocs
        agent_summaries :=
          [{ agent := labelName, task_id := task.id, summary := result.getSummary }]
        completed_tasks := {task.id} }
    else
      run_synthesis_task o state task

/-- competitor_scout_node of the source. -/
def competitor_scout_node (o : Oracles) (state : GraphState) : StateUpdate :=
  agent_task_node ("CompetitorScout") ("CompetitorScout") o.competitorScoutRun o state

/-- tech_paper_miner_node of the source. -/
def tech_paper_miner_node (o : Oracles) (state : GraphState) : StateUpdate :=
  agent_task_node ("TechPaperMiner") ("TechPaperMiner") o.techPaperMinerRun o state

/-- trend_scraper_node of the source. Note the source filters tasks on
assigned_agent TrendScraper but labels its summaries TrendsScraper. -/
def trend_scraper_node (o : Oracles) (state : GraphState) : StateUpdate :=
  agent_task_node ("TrendScraper") ("TrendsScraper") o.trendsScraperRun o state

/-- The possible results of the conditional edge out of router_node:
one of the three agent nodes, or END. -/
inductive NextNode where
  | competitor_scout : NextNode
  | tech_paper_miner : NextNode
  | trend_scraper : NextNode
  | END : NextNode
deriving DecidableEq

/-- get_next_node of the source: END when no task is runnable, otherwise
route on the assigned_agent of the first runnable task, with END for an
unknown agent name. -/
def get_next_node (state : GraphState) : NextNode :=
  match find_runnable_tasks state.plan state.completed_tasks with
  | [] => .END
  | task_to_run :: _ =>
    if task_to_run.assigned_agent = "CompetitorScout" then .competitor_scout
    else if task_to_run.assigned_agent = "TechPaperMiner" then .tech_paper_miner
    else if task_to_run.assigned_agent = "TrendScraper" then .trend_scraper
    else .END

/-- One scheduler step of the compiled graph: router_node (which writes
nothing), then the conditional edge get_next_node, then the selected
agent node merged into the state by the reducers; none when the edge
returns END. -/
def step (o : Oracles) (state : GraphState) : Option GraphState :=
  match get_next_node state with
  | .END => none
  | .competitor_scout => some (applyUpdate state (competitor_scout_node o state))
  | .tech_paper_miner => some (applyUpdate state (tech_paper_miner_node o state))
  | .trend_scraper => some (applyUpdate state (trend_scraper_node o state))

/-- The scheduler loop: agent nodes feed back into router_node until the
edge returns END, bounded by a step budget (the recursion limit of the
invocation). -/
def runScheduler (o : Oracles) : Nat → GraphState → GraphState
  | 0, state => state
  | fuel + 1, state =>
    match step o state with
    | none => state
    | some next => runScheduler o fuel next

/-- The set of task ids appearing in a plan. -/
def taskIds (plan : Plan) : Finset Nat :=
  (plan.tasks.map Task.id).toFinset

/-- The three agent names the router can dispatch to. -/
def knownAgents : List String :=
  ["CompetitorScout", "TechPaperMiner", "TrendScraper"]

/-- The capability that actually executes in one step, read off the
router and the branch structure of the dispatched node: none when the
edge returns END or the node finds no task, the synthesis helper when
the picked task has dependencies, otherwise the collector the router
named. -/
def dispatched_capability (state : GraphState) : Option String :=
  match get_next_node state with
  | .END => none
  | next =>
    let name :=
      match next with
      | .competitor_scout => "CompetitorScout"
      | .tech_paper_miner => "TechPaperMiner"
      | _ => "TrendScraper"
    match pick_task state.plan state.completed_tasks name with
    | none => none
    | some task =>
      if task.depends_on.isEmpty then some name else some "Synthesizer"

/-- The run method each node invokes, by the agent name it routes on:
competitor_scout_node constructs CompetitorScoutAgent,
tech_paper_miner_node TechPaperMinerAgent, trend_scraper_node
TrendsScraperAgent. -/
def collector_run (o : Oracles) (name : String) : Task → GraphState → RunResult :=
  if name = "CompetitorScout" then o.competitorScoutRun
  else if name = "TechPaperMiner" then o.techPaperMinerRun
  else o.trendsScraperRun

/-- The literal agent label each node writes into its summary entries:
identical to the routing name except for trend_scraper_node, which
filters on TrendScraper but labels with TrendsScraper. -/
def summary_label (name : String) : String :=
  if name = "TrendScraper" then "TrendsScraper" else name

/-! Concrete fixtures used by witnesses and counterexamples. -/

/-- Oracles whose collectors all succeed with empty document lists. -/
def trivialOracles : Oracles :=
  { competitorScoutRun := fun _ _ => .ok (.value "cs") []
    techPaperMinerRun := fun _ _ => .ok (.value "tpm") []
    trendsScraperRun := fun _ _ => .ok (.value "ts") []
    synthesizerInvoke := fun _ _ => "report" }

/-- Oracles whose CompetitorScout run fails with an error string. -/
def failingOracles : Oracles :=
  { trivialOracles with competitorScoutRun := fun _ _ => .err "boom" }

/-- Oracles whose CompetitorScout run fails with a different error
string than failingOracles. -/
def failingOracles2 : Oracles :=
  { trivialOracles with competitorScoutRun := fun _ _ => .err "other cause" }

/-- The initial state handed to the orchestrator: a plan, an empty
completed set, empty document and summary lists. -/
def initState (p : Plan) : GraphState :=
  { plan := p, completed_tasks := ∅, raw_documents := [],
    agent_summaries := [], final_report := "" }

/-- A task whose assigned_agent matches no node of the graph. -/
def taskD : Task :=
  { id := 1, title := "D", description := "", priority := "High",
    depends_on := [], assigned_agent := "Nonexistent" }

/-- A plan containing only the unroutable task. -/
def planD : Plan := { research_goal := "g", tasks := [taskD] }

/-- A dependency-free CompetitorScout task. -/
def taskA : Task :=
  { id := 1, title := "A", description := "", priority := "High",
    depends_on := [], assigned_agent := "CompetitorScout" }

/-- A TrendScraper task depending on taskA. -/
def taskB : Task :=
  { id := 2, title := "B", description := "", priority := "High",
    depends_on := [1], assigned_agent := "TrendScraper" }

/-- A two-task plan: taskA then taskB. -/
def planAB : Plan := { research_goal := "g", tasks := [taskA, taskB] }

/-- A roll-up task with a dependency but an unknown assigned_agent. -/
def taskU : Task :=
  { id := 2, title := "U", description := "", priority := "High",
    depends_on := [1], assigned_agent := "Nonexistent" }

/-- A plan whose second task is a roll-up task with an unknown agent. -/
def planU : Plan := { research_goal := "g", tasks := [taskA, taskU] }

/-- An unroutable task inside an otherwise well-formed acyclic plan. -/
def taskX : Task :=
  { id := 3, title := "X", description := "", priority := "High",
    depends_on := [], assigned_agent := "NoSuchAgent" }

/-- An acyclic dependency-free plan containing the unroutable taskX. -/
def planX : Plan := { research_goal := "g", tasks := [taskX] }

/-- A TechPaperMiner task depending on taskA. -/
def taskB2 : Task :=
  { id := 2, title := "B2", description := "", priority := "High",
    depends_on := [1], assigned_agent := "TechPaperMiner" }

/-- A TrendScraper task depending on taskB2. -/
def taskC3 : Task :=
  { id := 3, title := "C3", description := "", priority := "High",
    depends_on := [2], assigned_agent := "TrendScraper" }

/-- A linear three-task chain over the three known agents. -/
def planChain : Plan := { research_goal := "g", tasks := [taskA, taskB2, taskC3] }

/-- A task depending on an id that exists nowhere in its plan. -/
def taskE : Task :=
  { id := 1, title := "E", description := "", priority := "High",
    depends_on := [99], assigned_agent := "CompetitorScout" }

/-- A plan whose only task has a ghost dependency. -/
def planE : Plan := { research_goal := "g", tasks := [taskE] }

/-- A plan with no tasks at all. -/
def planEmpty : Plan := { research_goal := "g", tasks := [] }

/-- A state in which taskA is completed and the unknown-agent roll-up
task taskU is the first runnable task. -/
def stateU : GraphState :=
  { plan := planU, completed_tasks := {1}, raw_documents := [],
    agent_summaries := [], final_report := "" }

/-- A state in which taskA is completed and the roll-up task taskB is
the first runnable task. -/
def stateW2 : GraphState :=
  { plan := planAB, completed_tasks := {1}, raw_documents := [],
    agent_summaries := [], final_report := "" }

/-! Helper lemmas about the readiness computation. -/

/-- The loop of find_runnable_tasks computes an ordered filter of the
tasks list by the runnability predicate. -/
theorem runnable_loop_eq_filter (completed : Finset Nat) (tasks : List Task) :
    runnable_loop completed tasks =
      tasks.filter (fun t =>
        decide (t.id ∉ completed ∧ ∀ d ∈ t.depends_on, d ∈ completed)) := by
  induction tasks with
  | nil => rfl
  | cons task rest ih =>
    simp only [runnable_loop, List.filter_cons]
    by_cases h1 : task.id ∈ completed
    · rw [if_pos h1]
      have hp : decide (task.id ∉ completed ∧ ∀ d ∈ task.depends_on, d ∈ completed)
          = false := decide_eq_false (fun h => h.1 h1)
      rw [hp, if_neg (by simp), ih]
    · rw [if_neg h1]
      by_cases h2 : ∀ d ∈ task.depends_on, d ∈ completed
      · have hb : (task.depends_on.all fun d => decide (d ∈ completed)) = true := by
          simp only [List.all_eq_true, decide_eq_true_eq]; exact h2
        have hp : decide (task.id ∉ completed ∧ ∀ d ∈ task.depends_on, d ∈ completed)
            = true := decide_eq_true ⟨h1, h2⟩
        rw [if_pos hb, hp, if_pos rfl, ih]
      · have hb : (task.depends_on.all fun d => decide (d ∈ completed)) = false := by
          simpa [List.all_eq_true] using h2
        have hp : decide (task.id ∉ completed ∧ ∀ d ∈ task.depends_on, d ∈ completed)
            = false := decide_eq_false (fun h => h2 h.2)
        rw [if_neg (by simp [hb]), hp, if_neg (by simp), ih]

/-- find_runnable_tasks as an ordered filter of the task list of the plan. -/
theorem find_runnable_tasks_eq_filter (plan : Plan) (completed : Finset Nat) :
    find_runnable_tasks plan completed =
      plan.tasks.filter (fun t =>
        decide (t.id ∉ completed ∧ ∀ d ∈ t.depends_on, d ∈ completed)) :=
  runnable_loop_eq_filter completed plan.tasks

/-- Membership in the runnable list. -/
theorem mem_find_runnable_tasks (plan : Plan) (completed : Finset Nat) (t : Task) :
    t ∈ find_runnable_tasks plan completed ↔
      t ∈ plan.tasks ∧ t.id ∉ completed ∧ ∀ d ∈ t.depends_on, d ∈ completed := by
  rw [find_runnable_tasks_eq_filter]
  simp [List.mem_filter, and_assoc]

/-- If every task id of the plan is completed, nothing is runnable. -/
theorem find_runnable_tasks_eq_nil (plan : Plan) (completed : Finset Nat)
    (h : ∀ t ∈ plan.tasks, t.id ∈ completed) :
    find_runnable_tasks plan completed = [] := by
  rw [find_runnable_tasks_eq_filter, List.filter_eq_nil_iff]
  intro t ht
  simp [h t ht]

/-- The head of the runnable list is also what the selection loop of the
dispatched node picks for the agent name of that head: any earlier task
matching the stricter node predicate would already be runnable. -/
theorem pick_task_of_head (plan : Plan) (completed : Finset Nat) (t : Task)
    (rest : List Task)
    (hhead : find_runnable_tasks plan completed = t :: rest) :
    pick_task plan completed t.assigned_agent = some t := by
  rw [find_runnable_tasks] at hhead
  rw [pick_task]
  revert hhead
  generalize plan.tasks = l
  induction l with
  | nil => intro hhead; exact absurd hhead (by simp [runnable_loop])
  | cons u us ih =>
    intro hhead
    simp only [runnable_loop] at hhead
    by_cases h1 : u.id ∈ completed
    · rw [if_pos h1] at hhead
      rw [List.find?_cons_of_neg us (fun hq => (of_decide_eq_true hq).1 h1)]
      exact ih hhead
    · rw [if_neg h1] at hhead
      by_cases h2 : ∀ d ∈ u.depends_on, d ∈ completed
      · have hb : (u.depends_on.all fun d => decide (d ∈ completed)) = true := by
          simp only [List.all_eq_true, decide_eq_true_eq]; exact h2
        rw [if_pos hb] at hhead
        obtain ⟨hu, -⟩ := List.cons.inj hhead
        subst hu
        exact List.find?_cons_of_pos us (decide_eq_true ⟨h1, rfl, h2⟩)
      · have hb : ¬ ((u.depends_on.all fun d => decide (d ∈ completed)) = true) := by
          simp only [List.all_eq_true, decide_eq_true_eq]; exact h2
        rw [if_neg hb] at hhead
        rw [List.find?_cons_of_neg us (fun hq => h2 (of_decide_eq_true hq).2.2)]
        exact ih hhead

/-- What a successful pick guarantees about the picked task. -/
theorem pick_task_spec (plan : Plan) (completed : Finset Nat) (name : String)
    (task : Task) (hpick : pick_task plan completed name = some task) :
    task ∈ plan.tasks ∧ task.id ∉ completed ∧ task.assigned_agent = name ∧
      ∀ d ∈ task.depends_on, d ∈ completed := by
  rw [pick_task] at hpick
  have hmem := List.mem_of_find?_eq_some hpick
  have hp := List.find?_some hpick
  simp only [decide_eq_true_eq] at hp
  exact ⟨hmem, hp.1, hp.2.1, hp.2.2⟩

/-! Helper lemmas about nodes, the router and single steps. -/

/-- Merging the empty update leaves the state unchanged. -/
theorem applyUpdate_empty (s : GraphState) :
    applyUpdate s { completed_tasks := ∅ } = s := by
  cases s
  simp [applyUpdate]

/-- Whatever a node returns once its selection loop has picked a task,
the update marks exactly that task completed. -/
theorem agent_task_node_completed_of_pick (pickName labelName : String)
    (runAgent : Task → GraphState → RunResult) (o : Oracles) (s : GraphState)
    (task : Task)
    (hpick : pick_task s.plan s.completed_tasks pickName = some task) :
    (agent_task_node pickName labelName runAgent o s).completed_tasks = {task.id} := by
  simp only [agent_task_node, hpick]
  split
  · rfl
  · rfl

/-- The completed-tasks delta of a node: empty when nothing was picked,
otherwise exactly the id of the picked task. -/
theorem agent_task_node_delta (pickName labelName : String)
    (runAgent : Task → GraphState → RunResult) (o : Oracles) (s : GraphState) :
    agent_task_node pickName labelName runAgent o s = { completed_tasks := ∅ } ∨
    ∃ task, pick_task s.plan s.completed_tasks pickName = some task ∧
      (agent_task_node pickName labelName runAgent o s).completed_tasks = {task.id} := by
  cases hpick : pick_task s.plan s.completed_tasks pickName with
  | none => left; simp [agent_task_node, hpick]
  | some task =>
    right
    exact ⟨task, rfl,
      agent_task_node_completed_of_pick pickName labelName runAgent o s task hpick⟩

/-- The router answer, as a function of the first runnable task. -/
theorem get_next_node_of_head (state : GraphState) (t : Task) (rest : List Task)
    (hhead : find_runnable_tasks state.plan state.completed_tasks = t :: rest) :
    get_next_node state =
      if t.assigned_agent = "CompetitorScout" then .competitor_scout
      else if t.assigned_agent = "TechPaperMiner" then .tech_paper_miner
      else if t.assigned_agent = "TrendScraper" then .trend_scraper
      else .END := by
  unfold get_next_node
  rw [hhead]

/-- When nothing is runnable the router ends the graph. -/
theorem get_next_node_of_nil (state : GraphState)
    (h : find_runnable_tasks state.plan state.completed_tasks = []) :
    get_next_node state = .END := by
  unfold get_next_node
  rw [h]

/-- A step is refused exactly when the router answers END. -/
theorem step_eq_none_iff (o : Oracles) (s : GraphState) :
    step o s = none ↔ get_next_node s = .END := by
  cases h : get_next_node s <;> simp [step, h]

/-- Every produced step merges some node update into the state. -/
theorem step_is_applyUpdate (o : Oracles) (s s1 : GraphState)
    (hs : step o s = some s1) :
    ∃ u : StateUpdate, s1 = applyUpdate s u ∧
      (u = competitor_scout_node o s ∨ u = tech_paper_miner_node o s ∨
        u = trend_scraper_node o s) := by
  cases h : get_next_node s <;> simp [step, h] at hs
  · exact ⟨competitor_scout_node o s, hs.symm, Or.inl rfl⟩
  · exact ⟨tech_paper_miner_node o s, hs.symm, Or.inr (Or.inl rfl)⟩
  · exact ⟨trend_scraper_node o s, hs.symm, Or.inr (Or.inr rfl)⟩

/-- Frame and growth facts of a single step: plan and final_report are
untouched, documents and summaries are only appended to, and the
completed set either stays or grows by exactly the id of one runnable
plan task. -/
theorem step_delta (o : Oracles) (s s1 : GraphState) (hs : step o s = some s1) :
    s1.plan = s.plan ∧ s1.final_report = s.final_report ∧
    s.completed_tasks ⊆ s1.completed_tasks ∧
    (∃ ds, s1.raw_documents = s.raw_documents ++ ds) ∧
    (∃ ms, s1.agent_summaries = s.agent_summaries ++ ms) ∧
    (s1.completed_tasks = s.completed_tasks ∨
      ∃ task, task ∈ s.plan.tasks ∧ task.id ∉ s.completed_tasks ∧
        (∀ d ∈ task.depends_on, d ∈ s.completed_tasks) ∧
        s1.completed_tasks = s.completed_tasks ∪ {task.id}) := by
  obtain ⟨u, rfl, hu⟩ := step_is_applyUpdate o s s1 hs
  refine ⟨rfl, rfl, Finset.subset_union_left, ⟨u.raw_documents, rfl⟩,
    ⟨u.agent_summaries, rfl⟩, ?_⟩
  have hnode : ∀ pickName labelName runAgent,
      u = agent_task_node pickName labelName runAgent o s →
      (applyUpdate s u).completed_tasks = s.completed_tasks ∨
      ∃ task, task ∈ s.plan.tasks ∧ task.id ∉ s.completed_tasks ∧
        (∀ d ∈ task.depends_on, d ∈ s.completed_tasks) ∧
        (applyUpdate s u).completed_tasks = s.completed_tasks ∪ {task.id} := by
    intro pickName labelName runAgent hu
    rcases agent_task_node_delta pickName labelName runAgent o s with hempty | hsome
    · left
      rw [hu, hempty]
      simp [applyUpdate]
    · right
      obtain ⟨task, hpick, hcomp⟩ := hsome
      obtain ⟨hmem, hnotc, -, hdeps⟩ :=
        pick_task_spec s.plan s.completed_tasks pickName task hpick
      refine ⟨task, hmem, hnotc, hdeps, ?_⟩
      rw [hu]
      simp [applyUpdate, hcomp]
  rcases hu with hu | hu | hu
  · exact hnode _ _ _ hu
  · exact hnode _ _ _ hu
  · exact hnode _ _ _ hu

/-- With an exhausted router a scheduler run of any budget is a no-op. -/
theorem runScheduler_of_step_none (o : Oracles) (s : GraphState)
    (h : step o s = none) : ∀ fuel, runScheduler o fuel s = s := by
  intro fuel
  cases fuel <;> simp [runScheduler, h]

/-- The plan is never rewritten by the scheduler loop. -/
theorem runScheduler_plan (o : Oracles) (fuel : Nat) (s : GraphState) :
    (runScheduler o fuel s).plan = s.plan := by
  induction fuel generalizing s with
  | zero => rfl
  | succ fuel ih =>
    cases h : step o s with
    | none => simp [runScheduler, h]
    | some s1 =>
      have := (step_delta o s s1 h).1
      simp only [runScheduler, h]
      rw [ih s1, this]

/-- A produced step whose node picked a task: the step succeeds and
completes exactly that task. -/
theorem step_with_node (o : Oracles) (s : GraphState) (t : Task)
    (pickName labelName : String) (runAgent : Task → GraphState → RunResult)
    (hnode : step o s =
      some (applyUpdate s (agent_task_node pickName labelName runAgent o s)))
    (hpick : pick_task s.plan s.completed_tasks pickName = some t) :
    ∃ s1, step o s = some s1 ∧ s1.plan = s.plan ∧ t ∈ s.plan.tasks ∧
      t.id ∉ s.completed_tasks ∧
      s1.completed_tasks = s.completed_tasks ∪ {t.id} := by
  obtain ⟨hmem, hnc, -, -⟩ := pick_task_spec s.plan s.completed_tasks pickName t hpick
  refine ⟨_, hnode, rfl, hmem, hnc, ?_⟩
  simp [applyUpdate,
    agent_task_node_completed_of_pick pickName labelName runAgent o s t hpick]

/-- When the first runnable task carries a known agent name, the step
fires and completes exactly one not-yet-completed plan task. -/
theorem step_head_known (o : Oracles) (s : GraphState) (t : Task) (rest : List Task)
    (hhead : find_runnable_tasks s.plan s.completed_tasks = t :: rest)
    (hknown : t.assigned_agent ∈ knownAgents) :
    ∃ s1, step o s = some s1 ∧ s1.plan = s.plan ∧
      ∃ task, task ∈ s.plan.tasks ∧ task.id ∉ s.completed_tasks ∧
        s1.completed_tasks = s.completed_tasks ∪ {task.id} := by
  have hpick := pick_task_of_head s.plan s.completed_tasks t rest hhead
  have hgn := get_next_node_of_head s t rest hhead
  simp only [knownAgents, List.mem_cons, List.not_mem_nil, or_false] at hknown
  rcases hknown with ha | ha | ha
  · rw [ha, if_pos rfl] at hgn
    rw [ha] at hpick
    obtain ⟨s1, h1, h2, h3, h4, h5⟩ := step_with_node o s t
      ("CompetitorScout") ("CompetitorScout") o.competitorScoutRun
      (by simp [step, hgn, competitor_scout_node]) hpick
    exact ⟨s1, h1, h2, t, h3, h4, h5⟩
  · rw [ha, if_neg (by decide), if_pos rfl] at hgn
    rw [ha] at hpick
    obtain ⟨s1, h1, h2, h3, h4, h5⟩ := step_with_node o s t
      ("TechPaperMiner") ("TechPaperMiner") o.techPaperMinerRun
      (by simp [step, hgn, tech_paper_miner_node]) hpick
    exact ⟨s1, h1, h2, t, h3, h4, h5⟩
  · rw [ha, if_neg (by decide), if_neg (by decide), if_pos rfl] at hgn
    rw [ha] at hpick
    obtain ⟨s1, h1, h2, h3, h4, h5⟩ := step_with_node o s t
      ("TrendScraper") ("TrendsScraper") o.trendsScraperRun
      (by simp [step, hgn, trend_scraper_node]) hpick
    exact ⟨s1, h1, h2, t, h3, h4, h5⟩

/-- Under an acyclicity ranking with all dependency ids present in the
plan, every pending task leads to some runnable task. -/
theorem exists_ready (plan : Plan) (completed : Finset Nat) (rank : Nat → Nat)
    (hdeps : ∀ t ∈ plan.tasks, ∀ d ∈ t.depends_on, d ∈ taskIds plan)
    (hrank : ∀ t ∈ plan.tasks, ∀ d ∈ t.depends_on, rank d < rank t.id) :
    ∀ n, ∀ t, t ∈ plan.tasks → rank t.id < n → t.id ∉ completed →
      ∃ u ∈ plan.tasks, u.id ∉ completed ∧ ∀ d ∈ u.depends_on, d ∈ completed := by
  intro n
  induction n with
  | zero => intro t ht hlt hp; exact absurd hlt (Nat.not_lt_zero _)
  | succ n ih =>
    intro t ht hlt hp
    by_cases hall : ∀ d ∈ t.depends_on, d ∈ completed
    · exact ⟨t, ht, hp, hall⟩
    · push_neg at hall
      obtain ⟨d, hd, hdc⟩ := hall
      have hdid := hdeps t ht d hd
      rw [taskIds, List.mem_toFinset, List.mem_map] at hdid
      obtain ⟨td, htd, hid⟩ := hdid
      have h2 : rank td.id < rank t.id := by rw [hid]; exact hrank t ht d hd
      exact ih td htd (by omega) (by rw [hid]; exact hdc)

/-- The generalised termination induction: with known agents, all
dependency ids present, and an acyclicity ranking, a budget at least the
number of pending plan ids completes every plan task. -/
theorem sched_completes (o : Oracles) (plan : Plan) (rank : Nat → Nat)
    (hagents : ∀ t ∈ plan.tasks, t.assigned_agent ∈ knownAgents)
    (hdeps : ∀ t ∈ plan.tasks, ∀ d ∈ t.depends_on, d ∈ taskIds plan)
    (hrank : ∀ t ∈ plan.tasks, ∀ d ∈ t.depends_on, rank d < rank t.id) :
    ∀ fuel (s : GraphState), s.plan = plan →
      (taskIds plan \ s.completed_tasks).card ≤ fuel →
      (runScheduler o fuel s).completed_tasks = s.completed_tasks ∪ taskIds plan := by
  intro fuel
  induction fuel with
  | zero =>
    intro s hplan hcard
    have hsub : taskIds plan ⊆ s.completed_tasks := by
      rw [← Finset.sdiff_eq_empty_iff_subset]
      exact Finset.card_eq_zero.mp (Nat.le_zero.mp hcard)
    simp [runScheduler, Finset.union_eq_left.mpr hsub]
  | succ fuel ih =>
    intro s hplan hcard
    by_cases hdone : taskIds plan ⊆ s.completed_tasks
    · have hnil : find_runnable_tasks s.plan s.completed_tasks = [] := by
        apply find_runnable_tasks_eq_nil
        intro t ht
        apply hdone
        rw [taskIds, List.mem_toFinset, List.mem_map]
        exact ⟨t, by rw [← hplan]; exact ht, rfl⟩
      have hnone : step o s = none :=
        (step_eq_none_iff o s).mpr (get_next_node_of_nil s hnil)
      rw [runScheduler_of_step_none o s hnone]
      exact (Finset.union_eq_left.mpr hdone).symm
    · obtain ⟨x, hxA, hxC⟩ := Finset.not_subset.mp hdone
      rw [taskIds, List.mem_toFinset, List.mem_map] at hxA
      obtain ⟨tp, htp, hidx⟩ := hxA
      obtain ⟨u, hu, hunc, hall⟩ := exists_ready plan s.completed_tasks rank
        hdeps hrank (rank tp.id + 1) tp htp (by omega) (by rw [hidx]; exact hxC)
      have hrun : u ∈ find_runnable_tasks s.plan s.completed_tasks := by
        rw [hplan]
        exact (mem_find_runnable_tasks plan s.completed_tasks u).mpr ⟨hu, hunc, hall⟩
      cases hfr : find_runnable_tasks s.plan s.completed_tasks with
      | nil => rw [hfr] at hrun; cases hrun
      | cons t rest =>
        have htmem : t ∈ plan.tasks := by
          have hmemr : t ∈ find_runnable_tasks s.plan s.completed_tasks := by
            rw [hfr]; exact List.mem_cons_self t rest
          rw [hplan] at hmemr
          exact ((mem_find_runnable_tasks plan s.completed_tasks t).mp hmemr).1
        obtain ⟨s1, hstep, hplan1, task, htaskmem, htasknc, hcomp1⟩ :=
          step_head_known o s t rest hfr (hagents t htmem)
        have hplan1' : s1.plan = plan := by rw [hplan1, hplan]
        have hidmem : task.id ∈ taskIds plan := by
          rw [taskIds, List.mem_toFinset, List.mem_map]
          exact ⟨task, by rw [← hplan]; exact htaskmem, rfl⟩
        have hcard1 : (taskIds plan \ s1.completed_tasks).card ≤ fuel := by
          rw [hcomp1]
          have hset : taskIds plan \ (s.completed_tasks ∪ {task.id})
              = (taskIds plan \ s.completed_tasks).erase task.id := by
            ext y
            simp only [Finset.mem_sdiff, Finset.mem_union, Finset.mem_erase,
              Finset.mem_singleton]
            tauto
          have hdm : task.id ∈ taskIds plan \ s.completed_tasks :=
            Finset.mem_sdiff.mpr ⟨hidmem, htasknc⟩
          rw [hset, Finset.card_erase_of_mem hdm]
          omega
        have hfinal := ih s1 hplan1' hcard1
        have hrs : runScheduler o (fuel + 1) s = runScheduler o fuel s1 := by
          simp [runScheduler, hstep]
        rw [hrs, hfinal, hcomp1, Finset.union_assoc,
          Finset.union_eq_right.mpr (Finset.singleton_subset_iff.mpr hidmem)]

/-! Claim theorems. -/

/-- C1: Readiness correctness. For every plan and completed set,
find_runnable_tasks returns exactly the tasks whose id is not in
completed and whose depends_on set is a subset of completed, as an
order-preserving filter of the task list of the plan; for an empty task list
it returns the empty list. -/
theorem C1_readiness_correctness (plan : Plan) (completed : Finset Nat) :
    find_runnable_tasks plan completed =
      plan.tasks.filter (fun t =>
        decide (t.id ∉ completed ∧ ∀ d ∈ t.depends_on, d ∈ completed)) ∧
    find_runnable_tasks { research_goal := plan.research_goal, tasks := [] } completed
      = [] :=
  ⟨find_runnable_tasks_eq_filter plan completed, rfl⟩

/-- C2 (amended): Synthesizer dispatch. For the task selected for
execution (the head of the runnable list), when its assigned_capability
is one of the three known collector names, a non-empty depends_on
dispatches the Synthesizer regardless of which known collector is named
and an empty depends_on dispatches the collector named by
assigned_capability; when the assigned_capability is unknown, the router
returns END and nothing is dispatched at all. -/
theorem C2_synthesizer_dispatch (state : GraphState) (t : Task) (rest : List Task)
    (hhead : find_runnable_tasks state.plan state.completed_tasks = t :: rest) :
    (t.assigned_agent ∈ knownAgents →
      (t.depends_on = [] → dispatched_capability state = some t.assigned_agent) ∧
      (t.depends_on ≠ [] → dispatched_capability state = some "Synthesizer")) ∧
    (t.assigned_agent ∉ knownAgents →
      get_next_node state = NextNode.END ∧ dispatched_capability state = none) := by
  have hpick := pick_task_of_head state.plan state.completed_tasks t rest hhead
  have hgn := get_next_node_of_head state t rest hhead
  constructor
  · intro hknown
    simp only [knownAgents, List.mem_cons, List.not_mem_nil, or_false] at hknown
    have hcase : ∀ nn : NextNode, get_next_node state = nn →
        ∀ nm : String, t.assigned_agent = nm →
        pick_task state.plan state.completed_tasks nm = some t →
        (nn = NextNode.competitor_scout ∧ nm = "CompetitorScout" ∨
         nn = NextNode.tech_paper_miner ∧ nm = "TechPaperMiner" ∨
         nn = NextNode.trend_scraper ∧ nm = "TrendScraper") →
        (t.depends_on = [] → dispatched_capability state = some t.assigned_agent) ∧
        (t.depends_on ≠ [] → dispatched_capability state = some "Synthesizer") := by
      intro nn hnn nm hnm hpk hor
      constructor
      · intro hdep
        rw [hnm]
        rcases hor with ⟨h1, h2⟩ | ⟨h1, h2⟩ | ⟨h1, h2⟩ <;>
          (subst h1; subst h2; simp [dispatched_capability, hnn, hpk, hdep])
      · intro hdep
        have hne : t.depends_on.isEmpty = false := by
          cases hdp : t.depends_on with
          | nil => exact absurd hdp hdep
          | cons a l => rfl
        rcases hor with ⟨h1, h2⟩ | ⟨h1, h2⟩ | ⟨h1, h2⟩ <;>
          (subst h1; subst h2; simp [dispatched_capability, hnn, hpk, hne])
    rcases hknown with ha | ha | ha
    · rw [ha, if_pos rfl] at hgn
      exact hcase _ hgn _ ha (ha ▸ hpick) (Or.inl ⟨rfl, rfl⟩)
    · rw [ha, if_neg (by decide), if_pos rfl] at hgn
      exact hcase _ hgn _ ha (ha ▸ hpick) (Or.inr (Or.inl ⟨rfl, rfl⟩))
    · rw [ha, if_neg (by decide), if_neg (by decide), if_pos rfl] at hgn
      exact hcase _ hgn _ ha (ha ▸ hpick) (Or.inr (Or.inr ⟨rfl, rfl⟩))
  · intro hunk
    simp only [knownAgents, List.mem_cons, List.not_mem_nil, or_false, not_or] at hunk
    obtain ⟨h1, h2, h3⟩ := hunk
    rw [if_neg h1, if_neg h2, if_neg h3] at hgn
    exact ⟨hgn, by simp [dispatched_capability, hgn]⟩

/-- C2 counterexample: in stateU the selected task taskU has a non-empty
depends_on, yet no capability at all is dispatched (the router ends the
run because the literal assigned_capability is unknown), so the selected
task is not dispatched to the Synthesizer. -/
theorem C2_counterexample :
    find_runnable_tasks stateU.plan stateU.completed_tasks = [taskU] ∧
    taskU.depends_on ≠ [] ∧
    dispatched_capability stateU ≠ some "Synthesizer" := by decide

/-- C2 witness: in stateW2 the selected task taskB carries a known
collector name and a non-empty depends_on, and the Synthesizer is
dispatched. -/
theorem C2_synthesizer_dispatch_witness :
    dispatched_capability stateW2 = some "Synthesizer" :=
  ((C2_synthesizer_dispatch stateW2 taskB [] (by decide)).1 (by decide)).2 (by decide)

/-- C3: Monotonicity. Across any number of scheduler steps from any
state, the completed set only grows, and the raw-document and summary
lists only grow by appending at the end. -/
theorem C3_monotonicity (o : Oracles) (fuel : Nat) (s : GraphState) :
    s.completed_tasks ⊆ (runScheduler o fuel s).completed_tasks ∧
    (∃ ds, (runScheduler o fuel s).raw_documents = s.raw_documents ++ ds) ∧
    (∃ ms, (runScheduler o fuel s).agent_summaries = s.agent_summaries ++ ms) := by
  induction fuel generalizing s with
  | zero =>
    exact ⟨Finset.Subset.refl _, ⟨[], by simp [runScheduler]⟩,
      ⟨[], by simp [runScheduler]⟩⟩
  | succ fuel ih =>
    cases h : step o s with
    | none =>
      simp only [runScheduler, h]
      exact ⟨Finset.Subset.refl _, ⟨[], by simp⟩, ⟨[], by simp⟩⟩
    | some s1 =>
      obtain ⟨-, -, hsub, ⟨d1, hd1⟩, ⟨m1, hm1⟩, -⟩ := step_delta o s s1 h
      obtain ⟨hsub2, ⟨d2, hd2⟩, ⟨m2, hm2⟩⟩ := ih s1
      simp only [runScheduler, h]
      exact ⟨hsub.trans hsub2,
        ⟨d1 ++ d2, by rw [hd2, hd1, List.append_assoc]⟩,
        ⟨m1 ++ m2, by rw [hm2, hm1, List.append_assoc]⟩⟩

/-- C4 counterexample: a plan whose only task has an unknown
assigned_capability. The run terminates immediately, the id of the task is
not in completed at run end, and no error-flagged summary is appended,
contradicting the claim that the task is marked complete with a summary
and appears in completed. -/
theorem C4_counterexample :
    runScheduler trivialOracles 15 (initState planD) = initState planD ∧
    taskD.id ∉ (runScheduler trivialOracles 15 (initState planD)).completed_tasks ∧
    (runScheduler trivialOracles 15 (initState planD)).agent_summaries = [] := by
  decide

/-- C4 (amended): Unroutable-task handling. When the first runnable
assigned_capability of the task resolves to no known collector, the run does
not crash but it also does not progress past the task: the router
returns END immediately, no step fires, and the whole scheduler run
leaves the state unchanged, so the task is never marked complete and no
summary is appended. -/
theorem C4_unroutable_ends_run (o : Oracles) (state : GraphState) (t : Task)
    (rest : List Task)
    (hhead : find_runnable_tasks state.plan state.completed_tasks = t :: rest)
    (hunknown : t.assigned_agent ∉ knownAgents) :
    get_next_node state = NextNode.END ∧ step o state = none ∧
    ∀ fuel, runScheduler o fuel state = state := by
  have hgn := get_next_node_of_head state t rest hhead
  simp only [knownAgents, List.mem_cons, List.not_mem_nil, or_false, not_or] at hunknown
  obtain ⟨h1, h2, h3⟩ := hunknown
  rw [if_neg h1, if_neg h2, if_neg h3] at hgn
  have hnone : step o state = none := (step_eq_none_iff o state).mpr hgn
  exact ⟨hgn, hnone, runScheduler_of_step_none o state hnone⟩

/-- C4 witness: the unroutable plan planD instantiates the amended
claim. -/
theorem C4_unroutable_ends_run_witness :
    get_next_node (initState planD) = NextNode.END ∧
    step trivialOracles (initState planD) = none ∧
    ∀ fuel, runScheduler trivialOracles fuel (initState planD) = initState planD :=
  C4_unroutable_ends_run trivialOracles (initState planD) taskD [] (by decide) (by decide)

/-- C5 counterexample: a run in which exactly the CompetitorScout
invocation fails. The run completes both tasks and does not abort, but
the summary payload of the failing task is the empty default dict, which
records nothing about the error (the string boom appears in no summary),
contradicting the claim that the payload records the error. -/
theorem C5_counterexample :
    (runScheduler failingOracles 15 (initState planAB)).completed_tasks = {1, 2} ∧
    { agent := "CompetitorScout", task_id := 1, summary := SummaryPayload.emptyDict } ∈
      (runScheduler failingOracles 15 (initState planAB)).agent_summaries ∧
    (∀ s ∈ (runScheduler failingOracles 15 (initState planAB)).agent_summaries,
      s.task_id = 1 → s.summary = SummaryPayload.emptyDict) ∧
    (∀ s ∈ (runScheduler failingOracles 15 (initState planAB)).agent_summaries,
      s.summary ≠ SummaryPayload.value "boom") := by
  decide

/-- C5 (amended): Capability-error isolation. When the selected task is
a dependency-free collector task with a known agent name and its run
call fails, the run is not aborted: the step still fires, the task is
marked complete, its evidence contribution is empty, and a summary is
appended whose payload is the empty default dict (the error string is
logged but not recorded in the summary); the scheduler then continues
from the resulting state exactly as from any other state, so the
remaining runnable tasks execute normally. -/
theorem C5_capability_error_isolated (o : Oracles) (state : GraphState) (t : Task)
    (rest : List Task) (e : String)
    (hhead : find_runnable_tasks state.plan state.completed_tasks = t :: rest)
    (hknown : t.assigned_agent ∈ knownAgents)
    (hdeps : t.depends_on = [])
    (herr : collector_run o t.assigned_agent t state = RunResult.err e) :
    ∃ s1, step o state = some s1 ∧
      s1.completed_tasks = state.completed_tasks ∪ {t.id} ∧
      s1.raw_documents = state.raw_documents ∧
      s1.agent_summaries = state.agent_summaries ++
        [{ agent := summary_label t.assigned_agent, task_id := t.id,
           summary := SummaryPayload.emptyDict }] ∧
      s1.plan = state.plan := by
  have hpick := pick_task_of_head state.plan state.completed_tasks t rest hhead
  have hgn := get_next_node_of_head state t rest hhead
  have hemp : t.depends_on.isEmpty = true := by rw [hdeps]; rfl
  simp only [knownAgents, List.mem_cons, List.not_mem_nil, or_false] at hknown
  rcases hknown with ha | ha | ha
  · rw [ha, if_pos rfl] at hgn
    rw [ha] at hpick
    rw [ha, collector_run, if_pos rfl] at herr
    have hnode : competitor_scout_node o state =
        { raw_documents := [],
          agent_summaries := [⟨"CompetitorScout", t.id, SummaryPayload.emptyDict⟩],
          completed_tasks := {t.id} } := by
      simp [competitor_scout_node, agent_task_node, hpick, hemp, herr,
        RunResult.getRawDocs, RunResult.getSummary]
    refine ⟨applyUpdate state (competitor_scout_node o state),
      by simp [step, hgn], ?_, ?_, ?_, rfl⟩
    · simp [applyUpdate, hnode]
    · simp [applyUpdate, hnode]
    · rw [ha]
      simp [applyUpdate, hnode, summary_label]
  · rw [ha, if_neg (by decide), if_pos rfl] at hgn
    rw [ha] at hpick
    rw [ha, collector_run, if_neg (by decide), if_pos rfl] at herr
    have hnode : tech_paper_miner_node o state =
        { raw_documents := [],
          agent_summaries := [⟨"TechPaperMiner", t.id, SummaryPayload.emptyDict⟩],
          completed_tasks := {t.id} } := by
      simp [tech_paper_miner_node, agent_task_node, hpick, hemp, herr,
        RunResult.getRawDocs, RunResult.getSummary]
    refine ⟨applyUpdate state (tech_paper_miner_node o state),
      by simp [step, hgn], ?_, ?_, ?_, rfl⟩
    · simp [applyUpdate, hnode]
    · simp [applyUpdate, hnode]
    · rw [ha]
      simp [applyUpdate, hnode, summary_label]
  · rw [ha, if_neg (by decide), if_neg (by decide), if_pos rfl] at hgn
    rw [ha] at hpick
    rw [ha, collector_run, if_neg (by decide), if_neg (by decide)] at herr
    have hnode : trend_scraper_node o state =
        { raw_documents := [],
          agent_summaries := [⟨"TrendsScraper", t.id, SummaryPayload.emptyDict⟩],
          completed_tasks := {t.id} } := by
      simp [trend_scraper_node, agent_task_node, hpick, hemp, herr,
        RunResult.getRawDocs, RunResult.getSummary]
    refine ⟨applyUpdate state (trend_scraper_node o state),
      by simp [step, hgn], ?_, ?_, ?_, rfl⟩
    · simp [applyUpdate, hnode]
    · simp [applyUpdate, hnode]
    · rw [ha]
      simp [applyUpdate, hnode, summary_label]

/-- C5 witness: the failing CompetitorScout run on planAB instantiates
the amended claim. -/
theorem C5_capability_error_isolated_witness :
    ∃ s1, step failingOracles (initState planAB) = some s1 ∧
      s1.completed_tasks = (initState planAB).completed_tasks ∪ {taskA.id} ∧
      s1.raw_documents = (initState planAB).raw_documents ∧
      s1.agent_summaries = (initState planAB).agent_summaries ++
        [{ agent := summary_label taskA.assigned_agent, task_id := taskA.id,
           summary := SummaryPayload.emptyDict }] ∧
      s1.plan = (initState planAB).plan :=
  C5_capability_error_isolated failingOracles (initState planAB) taskA [] ("boom")
    (by decide) (by decide) (by decide) (by decide)

/-- C7 counterexample: planX is acyclic with no dependencies at all (so
every dependency id is vacuously present and there is no self-loop), yet
after N scheduler steps completed is not the full task-id set, because
the unknown assigned_capability of its single task makes the router end the
run without executing it. -/
theorem C7_counterexample :
    (∀ t ∈ planX.tasks, t.depends_on = []) ∧
    (runScheduler trivialOracles planX.tasks.length (initState planX)).completed_tasks
      ≠ taskIds planX := by
  decide

/-- C7 (amended): Termination on acyclic graphs whose tasks all name
known collectors. Starting from an empty completed set, if the
assigned_capability of every task is one of the three known collector names, every
dependency id occurs as a task id of the plan, and the dependency
relation admits a strictly decreasing ranking (acyclicity), then after
at most N scheduler steps (N the number of plan tasks) the completed set
equals the full task-id set and the router answers END. -/
theorem C7_termination_known_agents (o : Oracles) (init : GraphState)
    (hc : init.completed_tasks = ∅)
    (hagents : ∀ t ∈ init.plan.tasks, t.assigned_agent ∈ knownAgents)
    (hdeps : ∀ t ∈ init.plan.tasks, ∀ d ∈ t.depends_on, d ∈ taskIds init.plan)
    (hrank : ∃ rank : Nat → Nat,
      ∀ t ∈ init.plan.tasks, ∀ d ∈ t.depends_on, rank d < rank t.id) :
    (runScheduler o init.plan.tasks.length init).completed_tasks = taskIds init.plan ∧
    get_next_node (runScheduler o init.plan.tasks.length init) = NextNode.END := by
  obtain ⟨rank, hrank⟩ := hrank
  have hcard : (taskIds init.plan \ init.completed_tasks).card
      ≤ init.plan.tasks.length := by
    calc (taskIds init.plan \ init.completed_tasks).card
        ≤ (taskIds init.plan).card := Finset.card_le_card Finset.sdiff_subset
      _ ≤ (init.plan.tasks.map Task.id).length := List.toFinset_card_le _
      _ = init.plan.tasks.length := List.length_map _ _
  have hfin := sched_completes o init.plan rank hagents hdeps hrank
    init.plan.tasks.length init rfl hcard
  rw [hc, Finset.empty_union] at hfin
  refine ⟨hfin, ?_⟩
  apply get_next_node_of_nil
  apply find_runnable_tasks_eq_nil
  intro t ht
  rw [runScheduler_plan] at ht
  rw [hfin, taskIds, List.mem_toFinset, List.mem_map]
  exact ⟨t, ht, rfl⟩

/-- C7 witness: the linear three-task chain planChain over the three
known agents completes fully within three steps. -/
theorem C7_termination_known_agents_witness :
    (runScheduler trivialOracles (initState planChain).plan.tasks.length
        (initState planChain)).completed_tasks = taskIds (initState planChain).plan ∧
    get_next_node (runScheduler trivialOracles (initState planChain).plan.tasks.length
        (initState planChain)) = NextNode.END :=
  C7_termination_known_agents trivialOracles (initState planChain) (by decide)
    (by decide) (by decide) ⟨fun n => n, by decide⟩

/-- C8: Merge-order commutativity. Merging any two step updates into the
state in either order yields the same completed set (union is
order-insensitive) and permuted document and summary lists, hence the
same set of evidence records; only the relative order may differ. -/
theorem C8_merge_order_commutes (s : GraphState) (u1 u2 : StateUpdate) :
    (applyUpdate (applyUpdate s u1) u2).completed_tasks
      = (applyUpdate (applyUpdate s u2) u1).completed_tasks ∧
    List.Perm (applyUpdate (applyUpdate s u1) u2).raw_documents
      (applyUpdate (applyUpdate s u2) u1).raw_documents ∧
    (applyUpdate (applyUpdate s u1) u2).raw_documents.toFinset
      = (applyUpdate (applyUpdate s u2) u1).raw_documents.toFinset ∧
    List.Perm (applyUpdate (applyUpdate s u1) u2).agent_summaries
      (applyUpdate (applyUpdate s u2) u1).agent_summaries := by
  have hdocs : List.Perm
      ((s.raw_documents ++ u1.raw_documents) ++ u2.raw_documents)
      ((s.raw_documents ++ u2.raw_documents) ++ u1.raw_documents) := by
    rw [List.append_assoc, List.append_assoc]
    exact List.Perm.append_left _ List.perm_append_comm
  have hsums : List.Perm
      ((s.agent_summaries ++ u1.agent_summaries) ++ u2.agent_summaries)
      ((s.agent_summaries ++ u2.agent_summaries) ++ u1.agent_summaries) := by
    rw [List.append_assoc, List.append_assoc]
    exact List.Perm.append_left _ List.perm_append_comm
  refine ⟨?_, hdocs, List.toFinset_eq_of_perm _ _ hdocs, hsums⟩
  simp only [applyUpdate, Finset.union_assoc]
  rw [Finset.union_comm u1.completed_tasks u2.completed_tasks]

/-- A ghost dependency keeps the plan fixed, the ghost id out of the
completed set, and the id of the dependent task out of the completed set,
along every scheduler run. -/
theorem ghost_invariant (o : Oracles) (plan : Plan) (t : Task) (d : Nat)
    (hnodup : (plan.tasks.map Task.id).Nodup)
    (ht : t ∈ plan.tasks) (hd : d ∈ t.depends_on) (hghost : d ∉ taskIds plan) :
    ∀ fuel (s : GraphState), s.plan = plan → d ∉ s.completed_tasks →
      t.id ∉ s.completed_tasks →
      (runScheduler o fuel s).plan = plan ∧
      d ∉ (runScheduler o fuel s).completed_tasks ∧
      t.id ∉ (runScheduler o fuel s).completed_tasks := by
  intro fuel
  induction fuel with
  | zero => intro s h1 h2 h3; exact ⟨h1, h2, h3⟩
  | succ fuel ih =>
    intro s h1 h2 h3
    cases hs : step o s with
    | none =>
      simp only [runScheduler, hs]
      exact ⟨h1, h2, h3⟩
    | some s1 =>
      obtain ⟨hplan1, -, -, -, -, hcomp⟩ := step_delta o s s1 hs
      have h1' : s1.plan = plan := by rw [hplan1, h1]
      rcases hcomp with hsame | ⟨task, htask, hnc, hdc, heq⟩
      · have hrec := ih s1 h1' (hsame ▸ h2) (hsame ▸ h3)
        simpa [runScheduler, hs] using hrec
      · have hdid : task.id ∈ taskIds plan := by
          rw [taskIds, List.mem_toFinset, List.mem_map]
          exact ⟨task, h1 ▸ htask, rfl⟩
        have hdne : d ≠ task.id := fun hx => hghost (hx ▸ hdid)
        have htne : t.id ≠ task.id := by
          intro hx
          have hteq : t = task :=
            List.inj_on_of_nodup_map hnodup ht (h1 ▸ htask) hx
          exact absurd (hdc d (hteq ▸ hd)) h2
        have h2' : d ∉ s1.completed_tasks := by
          rw [heq]
          simp [Finset.mem_union, h2, hdne]
        have h3' : t.id ∉ s1.completed_tasks := by
          rw [heq]
          simp [Finset.mem_union, h3, htne]
        have hrec := ih s1 h1' h2' h3'
        simpa [runScheduler, hs] using hrec

/-- C9: Unsatisfiable-dependency handling. Under the data-model
invariant that task ids are unique within the plan, a task depending on
an id that occurs nowhere in the plan (and is not initially completed)
never appears in the runnable list at any step, its id is absent from
completed at every point of the run, and once nothing is runnable the
scheduler refuses further steps (the run ends normally). -/
theorem C9_unsatisfiable_dependency (o : Oracles) (init : GraphState) (t : Task)
    (d : Nat)
    (hnodup : (init.plan.tasks.map Task.id).Nodup)
    (ht : t ∈ init.plan.tasks) (hd : d ∈ t.depends_on)
    (hghost : d ∉ taskIds init.plan)
    (hinit_d : d ∉ init.completed_tasks)
    (hinit_t : t.id ∉ init.completed_tasks) :
    ∀ fuel,
      t ∉ find_runnable_tasks (runScheduler o fuel init).plan
          (runScheduler o fuel init).completed_tasks ∧
      t.id ∉ (runScheduler o fuel init).completed_tasks ∧
      (find_runnable_tasks (runScheduler o fuel init).plan
          (runScheduler o fuel init).completed_tasks = [] →
        step o (runScheduler o fuel init) = none) := by
  intro fuel
  obtain ⟨hplanf, hdf, htf⟩ := ghost_invariant o init.plan t d hnodup ht hd hghost
    fuel init rfl hinit_d hinit_t
  refine ⟨?_, htf, ?_⟩
  · intro hmem
    rw [mem_find_runnable_tasks] at hmem
    exact absurd (hmem.2.2 d hd) hdf
  · intro hnil
    exact (step_eq_none_iff o _).mpr (get_next_node_of_nil _ hnil)

/-- C9 witness: the ghost-dependency plan planE instantiates the claim;
after a 15-step budget the task is still not completed. -/
theorem C9_unsatisfiable_dependency_witness :
    taskE.id ∉ (runScheduler trivialOracles 15 (initState planE)).completed_tasks :=
  ((C9_unsatisfiable_dependency trivialOracles (initState planE) taskE 99 (by decide)
    (by decide) (by decide) (by decide) (by decide) (by decide)) 15).2.1

/-- C10: Idle-node frame property. If an agent node runs while no
pending task assigned to that agent has all its dependencies completed,
the node returns the empty update (empty completed delta, no documents,
no summaries), and merging it leaves the state exactly unchanged; this
holds for each of the three agent nodes. -/
theorem C10_idle_node_is_noop (o : Oracles) (state : GraphState) :
    ((¬ ∃ u ∈ state.plan.tasks, u.id ∉ state.completed_tasks ∧
        u.assigned_agent = "CompetitorScout" ∧
        ∀ dd ∈ u.depends_on, dd ∈ state.completed_tasks) →
      competitor_scout_node o state = { completed_tasks := ∅ } ∧
      applyUpdate state (competitor_scout_node o state) = state) ∧
    ((¬ ∃ u ∈ state.plan.tasks, u.id ∉ state.completed_tasks ∧
        u.assigned_agent = "TechPaperMiner" ∧
        ∀ dd ∈ u.depends_on, dd ∈ state.completed_tasks) →
      tech_paper_miner_node o state = { completed_tasks := ∅ } ∧
      applyUpdate state (tech_paper_miner_node o state) = state) ∧
    ((¬ ∃ u ∈ state.plan.tasks, u.id ∉ state.completed_tasks ∧
        u.assigned_agent = "TrendScraper" ∧
        ∀ dd ∈ u.depends_on, dd ∈ state.completed_tasks) →
      trend_scraper_node o state = { completed_tasks := ∅ } ∧
      applyUpdate state (trend_scraper_node o state) = state) := by
  have hgen : ∀ nm : String, (¬ ∃ u ∈ state.plan.tasks,
      u.id ∉ state.completed_tasks ∧ u.assigned_agent = nm ∧
      ∀ dd ∈ u.depends_on, dd ∈ state.completed_tasks) →
      pick_task state.plan state.completed_tasks nm = none := by
    intro nm h
    rw [pick_task, List.find?_eq_none]
    intro u hu
    simp only [decide_eq_true_eq]
    intro hc
    exact h ⟨u, hu, hc⟩
  refine ⟨fun h => ?_, fun h => ?_, fun h => ?_⟩
  · have hnode : competitor_scout_node o state = { completed_tasks := ∅ } := by
      simp [competitor_scout_node, agent_task_node, hgen _ h]
    exact ⟨hnode, by rw [hnode, applyUpdate_empty]⟩
  · have hnode : tech_paper_miner_node o state = { completed_tasks := ∅ } := by
      simp [tech_paper_miner_node, agent_task_node, hgen _ h]
    exact ⟨hnode, by rw [hnode, applyUpdate_empty]⟩
  · have hnode : trend_scraper_node o state = { completed_tasks := ∅ } := by
      simp [trend_scraper_node, agent_task_node, hgen _ h]
    exact ⟨hnode, by rw [hnode, applyUpdate_empty]⟩

/-- C10 witness: on the empty plan every agent node is a no-op and the
state is unchanged. -/
theorem C10_idle_node_is_noop_witness :
    competitor_scout_node trivialOracles (initState planEmpty)
      = { completed_tasks := ∅ } ∧
    applyUpdate (initState planEmpty)
      (competitor_scout_node trivialOracles (initState planEmpty))
      = initState planEmpty :=
  (C10_idle_node_is_noop trivialOracles (initState planEmpty)).1
    (by simp [initState, planEmpty])

end Orchestrator
